import Mathlib

/-!
Verification of the configuration-override engine and numeric helpers of
src/utils/__init__.py (Bongard-HOI training utilities).

The Python functions `anytype2bool_dict`, `parse_string_to_dict`,
`merge_to_dicts`, `override_cfg_from_list` and `div` are shallowly embedded
below.  Python values that can appear in a configuration tree (ints, bools,
floats, strings, nested dicts) are modelled by the inductive type `PyVal`;
Python exceptions are modelled by the `Except PyErr` monad; finite floats are
modelled as exact rationals.
-/

namespace Bongard

/-- Model of a Python float value.  Finite floats are modelled as exact
rationals (the float literals appearing in the claims, such as 5.5, are
exactly representable); the infinities and nan are separate constructors
because Python float parsing and conversion treat them specially. -/
inductive PyFloat where
  | finite : Rat → PyFloat
  | inf : Bool → PyFloat
  | nan : PyFloat
deriving DecidableEq

/-- A Python value as it can appear in a configuration tree: a scalar
(int, bool, float, str) or a dict from string keys to values.  A dict is
modelled as an association list; Python dicts have unique keys, so
well-formed configurations have no duplicate keys (theorems that need this
carry it as a hypothesis). -/
inductive PyVal where
  | vInt : Int → PyVal
  | vBool : Bool → PyVal
  | vFloat : PyFloat → PyVal
  | vStr : String → PyVal
  | vDict : List (String × PyVal) → PyVal

/-- The Python exceptions the embedded code can raise.  `assertionError`
carries the offending opts list, mirroring
assert len(opts) % 2 == 0, 'Paired input must be provided ..., opts: ...'. -/
inductive PyErr where
  | typeError
  | valueError
  | overflowError
  | assertionError (opts : List String)
deriving DecidableEq

/-- Dict (association-list) lookup: first entry with the given key, as in a
Python dict indexing / `k in d` test. -/
def lookupK (k : String) : List (String × PyVal) → Option PyVal
  | [] => none
  | (k2, v) :: rest => if k = k2 then some v else lookupK k rest

/-- True exactly on dict values. -/
def isDict : PyVal → Bool
  | .vDict _ => true
  | _ => false

/-! ### Python string-to-number parsing, modelled over character lists

`String.trim`, `String.toLower` etc. are avoided on purpose: the embedding
works on `s.toList` with structural functions so that every definition
reduces inside the kernel. -/

/-- Surrounding-whitespace strip, as Python int()/float() apply to their
string argument. -/
def pyTrim (s : String) : List Char :=
  ((s.toList.dropWhile Char.isWhitespace).reverse.dropWhile Char.isWhitespace).reverse

/-- Lower-cased character list of a string, modelling Python s.lower()
(ASCII range only). -/
def lowerChars (s : String) : List Char := s.toList.map Char.toLower

/-- Tail of a Python digit group after its first digit: digits with single
underscores allowed between digits (PEP 515), no trailing underscore. -/
def digitGroupTail : List Char → Bool
  | [] => true
  | '_' :: [] => false
  | '_' :: c :: rest => c.isDigit && digitGroupTail rest
  | c :: rest => c.isDigit && digitGroupTail rest

/-- A valid nonempty Python digit group: starts with a digit, underscores
only between digits. -/
def digitGroup : List Char → Bool
  | [] => false
  | c :: rest => c.isDigit && digitGroupTail rest

/-- Numeric value of a digit group, ignoring underscores. -/
def digitsVal (cs : List Char) : Nat :=
  cs.foldl (fun acc c => if c = '_' then acc else acc * 10 + (c.toNat - 48)) 0

/-- Model of Python int(s) on a string: optional surrounding whitespace,
optional sign, then a nonempty digit group (base 10; unicode digits are not
modelled).  Returns none where CPython raises ValueError. -/
def pyParseInt (s : String) : Option Int :=
  match pyTrim s with
  | '+' :: rest => if digitGroup rest then some (Int.ofNat (digitsVal rest)) else none
  | '-' :: rest => if digitGroup rest then some (-(Int.ofNat (digitsVal rest))) else none
  | cs => if digitGroup cs then some (Int.ofNat (digitsVal cs)) else none

/-- Split a character list at the first character satisfying p; the second
component is none when no such character occurs. -/
def splitOnceBy (p : Char → Bool) : List Char → List Char × Option (List Char)
  | [] => ([], none)
  | c :: rest =>
    if p c then ([], some rest)
    else
      match splitOnceBy p rest with
      | (a, b) => (c :: a, b)

/-- Validity of the mantissa of a Python float literal, split as integer
part and optional fractional part: each part empty or a digit group, not
both empty (so "5.", ".5", "5.5", "5" are valid and "." , "" are not). -/
def mantissaOk (ip : List Char) (fp : Option (List Char)) : Bool :=
  match fp with
  | none => digitGroup ip
  | some fs =>
    (ip.isEmpty || digitGroup ip) && (fs.isEmpty || digitGroup fs) &&
      !(ip.isEmpty && fs.isEmpty)

/-- Exact rational value of a mantissa (integer part plus fraction). -/
def mantissaVal (ip : List Char) (fp : Option (List Char)) : Rat :=
  let fs := match fp with | none => [] | some fs => fs
  let fdigits := (fs.filter (fun c => !(c = '_'))).length
  (Int.ofNat (digitsVal ip) : Rat) + (Int.ofNat (digitsVal fs) : Rat) / (10 : Rat) ^ fdigits

/-- Signed exponent of a Python float literal; none marks an invalid
exponent part (CPython ValueError). -/
def expVal : Option (List Char) → Option Int
  | none => some 0
  | some es =>
    match es with
    | '+' :: rest => if digitGroup rest then some (Int.ofNat (digitsVal rest)) else none
    | '-' :: rest => if digitGroup rest then some (-(Int.ofNat (digitsVal rest))) else none
    | rest => if digitGroup rest then some (Int.ofNat (digitsVal rest)) else none

/-- Model of Python float(s) on a string: optional whitespace and sign, then
inf/infinity/nan (case-insensitive) or a decimal literal with optional
exponent.  The numeric value is kept exactly (no binary rounding). -/
def pyParseFloat (s : String) : Option PyFloat :=
  let t := pyTrim s
  let sgnBody : Bool × List Char :=
    match t with
    | '+' :: rest => (false, rest)
    | '-' :: rest => (true, rest)
    | cs => (false, cs)
  let sgnNeg := sgnBody.1
  let body := sgnBody.2
  let bodyLower := body.map Char.toLower
  if bodyLower = "inf".toList ∨ bodyLower = "infinity".toList then some (.inf sgnNeg)
  else if bodyLower = "nan".toList then some .nan
  else
    match splitOnceBy (fun c => c = 'e' ∨ c = 'E') body with
    | (mant, eopt) =>
      match splitOnceBy (fun c => c = '.') mant with
      | (ip, fp) =>
        if mantissaOk ip fp then
          match expVal eopt with
          | some e =>
            let q := mantissaVal ip fp * (10 : Rat) ^ e
            some (.finite (if sgnNeg then -q else q))
          | none => none
        else none

/-- Python int() truncation of a finite float toward zero. -/
def ratTrunc (q : Rat) : Int :=
  if 0 ≤ q.num then q.num / (q.den : Int) else -((-q.num) / (q.den : Int))

/-- A single-quote character as a string (used by the repr model). -/
def squote : String := String.singleton (Char.ofNat 39)

/-- Stand-in for Python repr of a float.  Finite values with denominator 1
print like CPython ("5.0"); other finite values print as a rational, which
is a model-level abstraction (no claim depends on this text). -/
def pyFloatStr : PyFloat → String
  | .finite q => if q.den = 1 then toString q.num ++ ".0" else toString q
  | .inf b => if b then "-inf" else "inf"
  | .nan => "nan"

mutual
/-- Model of Python repr for configuration values.  The dict rendering
mirrors CPython's format; it is only needed to make str(b) total and no
claim depends on its exact text. -/
def pyRepr : PyVal → String
  | .vInt n => toString n
  | .vBool b => if b then "True" else "False"
  | .vFloat f => pyFloatStr f
  | .vStr s => squote ++ s ++ squote
  | .vDict d => "\x7b" ++ pyReprEntries d ++ "\x7d"
/-- Comma-separated repr of dict entries. -/
def pyReprEntries : List (String × PyVal) → String
  | [] => ""
  | [(k, v)] => squote ++ k ++ squote ++ ": " ++ pyRepr v
  | (k, v) :: rest => squote ++ k ++ squote ++ ": " ++ pyRepr v ++ ", " ++ pyReprEntries rest
end

/-- Model of Python str(b): identity on strings, repr on the other
configuration value types. -/
def pyStr : PyVal → String
  | .vStr s => s
  | v => pyRepr v

/-- Model of the Python expression type(a)(b): convert b to the runtime type
of a.  This is what merge_to_dicts applies (wrapped in deepcopy) whenever at
least one of the two merged values is not a dict.  Error constructors mirror
the exceptions CPython raises (for example dict(5) is a TypeError and
int("abc") a ValueError). -/
def pyConvert (a b : PyVal) : Except PyErr PyVal :=
  match a, b with
  | .vInt _, .vInt n => .ok (.vInt n)
  | .vInt _, .vBool bb => .ok (.vInt (if bb then 1 else 0))
  | .vInt _, .vFloat (.finite q) => .ok (.vInt (ratTrunc q))
  | .vInt _, .vFloat (.inf _) => .error .overflowError
  | .vInt _, .vFloat .nan => .error .valueError
  | .vInt _, .vStr s =>
    match pyParseInt s with
    | some n => .ok (.vInt n)
    | none => .error .valueError
  | .vInt _, .vDict _ => .error .typeError
  | .vBool _, .vInt n => .ok (.vBool (decide (n ≠ 0)))
  | .vBool _, .vBool bb => .ok (.vBool bb)
  | .vBool _, .vFloat (.finite q) => .ok (.vBool (decide (q ≠ 0)))
  | .vBool _, .vFloat (.inf _) => .ok (.vBool true)
  | .vBool _, .vFloat .nan => .ok (.vBool true)
  | .vBool _, .vStr s => .ok (.vBool (decide (s ≠ "")))
  | .vBool _, .vDict d => .ok (.vBool (!d.isEmpty))
  | .vFloat _, .vInt n => .ok (.vFloat (.finite (n : Rat)))
  | .vFloat _, .vBool bb => .ok (.vFloat (.finite (if bb then 1 else 0)))
  | .vFloat _, .vFloat f => .ok (.vFloat f)
  | .vFloat _, .vStr s =>
    match pyParseFloat s with
    | some f => .ok (.vFloat f)
    | none => .error .valueError
  | .vFloat _, .vDict _ => .error .typeError
  | .vStr _, b => .ok (.vStr (pyStr b))
  | .vDict _, .vStr s => if s = "" then .ok (.vDict []) else .error .valueError
  | .vDict _, .vDict d => .ok (.vDict d)
  | .vDict _, .vInt _ => .error .typeError
  | .vDict _, .vBool _ => .error .typeError
  | .vDict _, .vFloat _ => .error .typeError

/-- Embedding of anytype2bool_dict: non-strings pass through; a string is
tried as int, then true/false (case-insensitive), then float, else kept. -/
def anytype2bool_dict (s : PyVal) : PyVal :=
  match s with
  | .vStr str =>
    match pyParseInt str with
    | some n => .vInt n
    | none =>
      if lowerChars str = "true".toList ∨ lowerChars str = "false".toList then
        .vBool (decide (lowerChars str = "true".toList))
      else
        match pyParseFloat str with
        | some f => .vFloat f
        | none => .vStr str
  | v => v

/-- Split a character list on the dot character, keeping empty segments,
exactly like Python field_name.split('.') for the single-character
separator used by parse_string_to_dict. -/
def splitOnDot : List Char → List (List Char)
  | [] => [[]]
  | c :: rest =>
    if c = '.' then [] :: splitOnDot rest
    else
      match splitOnDot rest with
      | g :: gs => (c :: g) :: gs
      | [] => [[c]]

/-- The field list field_name.split('.') of the source, as strings. -/
def pyFieldSplit (s : String) : List String :=
  (splitOnDot s.toList).map (fun cs => String.mk cs)

/-- The loop body of parse_string_to_dict: iterate over the reversed field
list, wrapping the accumulated value one dict level per field.  The source
applies anytype2bool_dict at every level; from the second level on the
argument is a dict, on which the coercion is the identity.  The [] case is
unreachable because a Python str.split result is never empty. -/
def psdLoop : List String → PyVal → PyVal
  | [], value => value
  | fd :: rest, value => psdLoop rest (.vDict [(fd, anytype2bool_dict value)])

/-- Embedding of parse_string_to_dict. -/
def parse_string_to_dict (field_name : String) (value : PyVal) : PyVal :=
  psdLoop (pyFieldSplit field_name).reverse value

/-- The entries of db whose key is absent from da: the `every_key` keys that
come only from the override side of merge_to_dicts (their values are
deep-copied, which on immutable model values is the identity). -/
def bOnly (da db : List (String × PyVal)) : List (String × PyVal) :=
  db.filter (fun p => (lookupK p.1 da).isNone)

mutual
/-- Embedding of merge_to_dicts: when both arguments are dicts the result's
keys are the union of both key sets, keys in both merge recursively, keys in
one side are deep-copied from it; otherwise the result is
deepcopy(type(a)(b)), i.e. `pyConvert a b`.  The model lists the keys of a
first (in a's order) and then the keys only in b (in b's order); a Python
dict built over an unordered key set carries no observable order, so any
fixed order is a faithful refinement. -/
def merge_to_dicts : PyVal → PyVal → Except PyErr PyVal
  | .vDict da, .vDict db =>
    match mergeBoth da db with
    | .ok l => .ok (.vDict (l ++ bOnly da db))
    | .error e => .error e
  | a, b => pyConvert a b
/-- The entries of the merge whose key occurs in da: shared keys are merged
recursively, keys only in da keep da's value.  An exception raised by a
recursive merge aborts the whole merge, as in Python. -/
def mergeBoth : List (String × PyVal) → List (String × PyVal) → Except PyErr (List (String × PyVal))
  | [], _ => .ok []
  | (k, va) :: rest, db =>
    match lookupK k db with
    | some vb =>
      match merge_to_dicts va vb with
      | .ok v =>
        match mergeBoth rest db with
        | .ok tail => .ok ((k, v) :: tail)
        | .error e => .error e
      | .error e => .error e
    | none =>
      match mergeBoth rest db with
      | .ok tail => .ok ((k, va) :: tail)
      | .error e => .error e
end

/-- The loop of override_cfg_from_list: consume (path, value) token pairs
left to right, merging each expanded override into the accumulated config.
The singleton case is unreachable under the even-length guard. -/
def ocflLoop : PyVal → List String → Except PyErr PyVal
  | cfg, [] => .ok cfg
  | cfg, [_] => .ok cfg
  | cfg, p :: v :: rest =>
    match merge_to_dicts cfg (parse_string_to_dict p (.vStr v)) with
    | .ok cfg2 => ocflLoop cfg2 rest
    | .error e => .error e

/-- Embedding of override_cfg_from_list: the assert fires (before any merge)
exactly when opts has odd length; otherwise the overrides are applied left
to right. -/
def override_cfg_from_list (cfg : PyVal) (opts : List String) : Except PyErr PyVal :=
  if opts.length % 2 = 0 then ocflLoop cfg opts
  else .error (.assertionError opts)

/-- A key path is present in a value when following the keys through nested
dicts succeeds (the empty path is present in anything). -/
def hasPath : List String → PyVal → Bool
  | [], _ => true
  | k :: rest, .vDict d =>
    match lookupK k d with
    | some v => hasPath rest v
    | none => false
  | _ :: _, _ => false

mutual
/-- No empty-string value occurs anywhere in the value.  Merging a dict with
the value "" is the single way merge_to_dicts can silently drop keys
(dict("") evaluates to the empty dict), so this predicate isolates that
exceptional input. -/
def noEmptyStr : PyVal → Bool
  | .vStr s => decide (s ≠ "")
  | .vDict d => noEmptyStrE d
  | _ => true
/-- Entry-list form of noEmptyStr. -/
def noEmptyStrE : List (String × PyVal) → Bool
  | [] => true
  | (_, v) :: rest => noEmptyStr v && noEmptyStrE rest
end

/-- The single-branch nested mapping described by the spec for path
expansion: successive keys are the path segments and the innermost leaf is
the given value.  This definition follows the spec's words and is compared
with the embedded parse_string_to_dict. -/
def specNestedPath : List String → PyVal → PyVal
  | [], v => v
  | k :: rest, v => .vDict [(k, specNestedPath rest v)]

/-! ### Tensor helpers for div -/

/-- A one-dimensional torch tensor of floats, modelled with exact rational
entries (the zero test in div is exact; the claims do not depend on binary
rounding).  The source's tensor branch indexes with
torch.nonzero(denom == 0).squeeze(1), which assumes a one-dimensional
denominator. -/
structure PyTensor where
  data : List Rat
deriving DecidableEq

/-- The denominator argument of div, typed Union[Tensor, int, float] in the
source. -/
inductive TorchDenom where
  | dInt : Int → TorchDenom
  | dFloat : Rat → TorchDenom
  | dTensor : PyTensor → TorchDenom
deriving DecidableEq

/-- The literal 1e-8 added to zero denominator entries. -/
def eps8 : Rat := 1 / 100000000

/-- torch.zeros_like: a tensor of zeros with the numerator's shape. -/
def zeros_like (t : PyTensor) : PyTensor := ⟨t.data.map (fun _ => 0)⟩

/-- Embedding of div.  The in-place mutation of a tensor denominator
(denom[zero_idx] += 1e-8) is made explicit by returning the final state of
the denominator argument alongside the quotient: scalar denominators are
untouched, a tensor denominator has 1e-8 added to each zero entry before
the elementwise division. -/
def div (numerator : PyTensor) (denom : TorchDenom) : PyTensor × TorchDenom :=
  match denom with
  | .dInt n =>
    (if n = 0 then zeros_like numerator
     else ⟨numerator.data.map (fun x => x / (n : Rat))⟩, denom)
  | .dFloat q =>
    (if q = 0 then zeros_like numerator
     else ⟨numerator.data.map (fun x => x / q)⟩, denom)
  | .dTensor d =>
    let d2 : PyTensor := ⟨d.data.map (fun x => if x = 0 then x + eps8 else x)⟩
    (⟨(numerator.data.zip d2.data).map (fun p => p.1 / p.2)⟩, .dTensor d2)

/-! ### Association-list lemmas -/

theorem lookupK_nil (k : String) : lookupK k [] = none := rfl

theorem lookupK_cons (k k2 : String) (v : PyVal) (rest : List (String × PyVal)) :
    lookupK k ((k2, v) :: rest) = if k = k2 then some v else lookupK k rest := rfl

theorem lookupK_append_some {k : String} {l1 l2 : List (String × PyVal)} {v : PyVal}
    (h : lookupK k l1 = some v) : lookupK k (l1 ++ l2) = some v := by
  induction l1 with
  | nil => simp [lookupK] at h
  | cons e rest ih =>
    obtain ⟨k2, w⟩ := e
    by_cases hk : k = k2 <;> simp_all [lookupK_cons]

theorem lookupK_append_none {k : String} {l1 : List (String × PyVal)}
    (l2 : List (String × PyVal)) (h : lookupK k l1 = none) :
    lookupK k (l1 ++ l2) = lookupK k l2 := by
  induction l1 with
  | nil => simp
  | cons e rest ih =>
    obtain ⟨k2, w⟩ := e
    by_cases hk : k = k2 <;> simp_all [lookupK_cons]

theorem lookupK_isSome_iff {k : String} {l : List (String × PyVal)} :
    (lookupK k l).isSome ↔ k ∈ l.map Prod.fst := by
  induction l with
  | nil => simp [lookupK]
  | cons e rest ih =>
    obtain ⟨k2, w⟩ := e
    by_cases hk : k = k2 <;> simp_all [lookupK_cons]

theorem lookupK_eq_none_iff {k : String} {l : List (String × PyVal)} :
    lookupK k l = none ↔ k ∉ l.map Prod.fst := by
  rw [← lookupK_isSome_iff, Option.not_isSome_iff_eq_none]

theorem lookupK_isSome_of_mem {k : String} {v : PyVal} {l : List (String × PyVal)}
    (h : (k, v) ∈ l) : (lookupK k l).isSome := by
  rw [lookupK_isSome_iff]
  exact List.mem_map_of_mem Prod.fst h

theorem lookupK_of_mem_nodup {k : String} {v : PyVal} {l : List (String × PyVal)}
    (hnd : (l.map Prod.fst).Nodup) (h : (k, v) ∈ l) : lookupK k l = some v := by
  induction l with
  | nil => simp at h
  | cons e rest ih =>
    obtain ⟨k2, w⟩ := e
    simp only [List.map_cons, List.nodup_cons] at hnd
    rcases List.mem_cons.mp h with h1 | h2
    · obtain ⟨rfl, rfl⟩ := Prod.mk.injEq .. ▸ h1
      simp [lookupK_cons]
    · have hk : k ≠ k2 := by
        rintro rfl
        exact hnd.1 (List.mem_map_of_mem Prod.fst h2)
      simp [lookupK_cons, hk, ih hnd.2 h2]

/-! ### Lemmas about bOnly (override-only keys) -/

theorem bOnly_sublist (da db : List (String × PyVal)) : (bOnly da db).Sublist db :=
  List.filter_sublist db

theorem lookupK_bOnly_of_some {k : String} {da db : List (String × PyVal)}
    (h : (lookupK k da).isSome) : lookupK k (bOnly da db) = none := by
  induction db with
  | nil => rfl
  | cons e rest ih =>
    obtain ⟨k2, w⟩ := e
    by_cases hk : k = k2
    · subst hk
      have : (lookupK k da).isNone = false := by
        cases hh : lookupK k da <;> simp_all
      simp [bOnly, List.filter_cons, this] at ih ⊢
      exact ih
    · by_cases hcond : (lookupK k2 da).isNone <;>
        simp [bOnly, List.filter_cons, hcond, lookupK_cons, hk] at ih ⊢ <;> exact ih

theorem lookupK_bOnly_of_none {k : String} {da db : List (String × PyVal)}
    (h : lookupK k da = none) : lookupK k (bOnly da db) = lookupK k db := by
  induction db with
  | nil => rfl
  | cons e rest ih =>
    obtain ⟨k2, w⟩ := e
    by_cases hk : k = k2
    · subst hk
      have : (lookupK k da).isNone = true := by simp [h]
      simp [bOnly, List.filter_cons, this, lookupK_cons]
    · by_cases hcond : (lookupK k2 da).isNone <;>
        simp [bOnly, List.filter_cons, hcond, lookupK_cons, hk] at ih ⊢ <;> exact ih

/-! ### Characterization of mergeBoth and merge_to_dicts -/

theorem merge_dicts_cases {da db : List (String × PyVal)} {r : PyVal}
    (h : merge_to_dicts (.vDict da) (.vDict db) = .ok r) :
    ∃ l, mergeBoth da db = .ok l ∧ r = .vDict (l ++ bOnly da db) := by
  simp only [merge_to_dicts] at h
  cases hm : mergeBoth da db with
  | ok l =>
    rw [hm] at h
    exact ⟨l, rfl, by injection h with h2; exact h2.symm⟩
  | error e => rw [hm] at h; cases h

theorem merge_dicts_of_mergeBoth {da db : List (String × PyVal)} {l : List (String × PyVal)}
    (h : mergeBoth da db = .ok l) :
    merge_to_dicts (.vDict da) (.vDict db) = .ok (.vDict (l ++ bOnly da db)) := by
  simp only [merge_to_dicts, h]

theorem merge_not_both_dicts {a b : PyVal} (h : isDict a = false ∨ isDict b = false) :
    merge_to_dicts a b = pyConvert a b := by
  rw [merge_to_dicts.eq_def]
  cases a <;> cases b <;> simp_all [isDict]

theorem mergeBoth_keys {da db l : List (String × PyVal)}
    (h : mergeBoth da db = .ok l) : l.map Prod.fst = da.map Prod.fst := by
  induction da generalizing l with
  | nil =>
    simp only [mergeBoth] at h
    injection h with h2
    simp [← h2]
  | cons e rest ih =>
    obtain ⟨k2, va⟩ := e
    cases hdb : lookupK k2 db with
    | some vb =>
      cases hm : merge_to_dicts va vb with
      | ok v =>
        cases ht : mergeBoth rest db with
        | ok tail =>
          simp only [mergeBoth, hdb, hm, ht] at h
          injection h with h2
          simp [← h2, ih ht]
        | error e2 => simp [mergeBoth, hdb, hm, ht] at h
      | error e2 => simp [mergeBoth, hdb, hm] at h
    | none =>
      cases ht : mergeBoth rest db with
      | ok tail =>
        simp only [mergeBoth, hdb, ht] at h
        injection h with h2
        simp [← h2, ih ht]
      | error e2 => simp [mergeBoth, hdb, ht] at h

theorem mergeBoth_lookup_shared {da db l : List (String × PyVal)} {k : String}
    {va vb : PyVal} (h : mergeBoth da db = .ok l) (ha : lookupK k da = some va)
    (hb : lookupK k db = some vb) :
    ∃ v, merge_to_dicts va vb = .ok v ∧ lookupK k l = some v := by
  induction da generalizing l with
  | nil => simp [lookupK] at ha
  | cons e rest ih =>
    obtain ⟨k2, va2⟩ := e
    by_cases hk : k = k2
    · rw [lookupK_cons, if_pos hk] at ha
      injection ha with ha2
      have hdb2 : lookupK k2 db = some vb := hk ▸ hb
      cases hm : merge_to_dicts va2 vb with
      | ok v =>
        cases ht : mergeBoth rest db with
        | ok tail =>
          simp only [mergeBoth, hdb2, hm, ht] at h
          injection h with h2
          exact ⟨v, ha2 ▸ hm, by simp [← h2, lookupK_cons, hk]⟩
        | error e2 => simp [mergeBoth, hdb2, hm, ht] at h
      | error e2 => simp [mergeBoth, hdb2, hm] at h
    · rw [lookupK_cons, if_neg hk] at ha
      cases hdb : lookupK k2 db with
      | some vb2 =>
        cases hm : merge_to_dicts va2 vb2 with
        | ok v2 =>
          cases ht : mergeBoth rest db with
          | ok tail =>
            simp only [mergeBoth, hdb, hm, ht] at h
            injection h with h2
            obtain ⟨v, hv, hl⟩ := ih ht ha
            exact ⟨v, hv, by simp [← h2, lookupK_cons, hk, hl]⟩
          | error e2 => simp [mergeBoth, hdb, hm, ht] at h
        | error e2 => simp [mergeBoth, hdb, hm] at h
      | none =>
        cases ht : mergeBoth rest db with
        | ok tail =>
          simp only [mergeBoth, hdb, ht] at h
          injection h with h2
          obtain ⟨v, hv, hl⟩ := ih ht ha
          exact ⟨v, hv, by simp [← h2, lookupK_cons, hk, hl]⟩
        | error e2 => simp [mergeBoth, hdb, ht] at h

theorem mergeBoth_lookup_only {da db l : List (String × PyVal)} {k : String}
    {va : PyVal} (h : mergeBoth da db = .ok l) (ha : lookupK k da = some va)
    (hb : lookupK k db = none) : lookupK k l = some va := by
  induction da generalizing l with
  | nil => simp [lookupK] at ha
  | cons e rest ih =>
    obtain ⟨k2, va2⟩ := e
    by_cases hk : k = k2
    · rw [lookupK_cons, if_pos hk] at ha
      injection ha with ha2
      have hdb2 : lookupK k2 db = none := hk ▸ hb
      cases ht : mergeBoth rest db with
      | ok tail =>
        simp only [mergeBoth, hdb2, ht] at h
        injection h with h2
        simp [← h2, lookupK_cons, hk, ha2]
      | error e2 => simp [mergeBoth, hdb2, ht] at h
    · rw [lookupK_cons, if_neg hk] at ha
      cases hdb : lookupK k2 db with
      | some vb2 =>
        cases hm : merge_to_dicts va2 vb2 with
        | ok v2 =>
          cases ht : mergeBoth rest db with
          | ok tail =>
            simp only [mergeBoth, hdb, hm, ht] at h
            injection h with h2
            simp [← h2, lookupK_cons, hk, ih ht ha]
          | error e2 => simp [mergeBoth, hdb, hm, ht] at h
        | error e2 => simp [mergeBoth, hdb, hm] at h
      | none =>
        cases ht : mergeBoth rest db with
        | ok tail =>
          simp only [mergeBoth, hdb, ht] at h
          injection h with h2
          simp [← h2, lookupK_cons, hk, ih ht ha]
        | error e2 => simp [mergeBoth, hdb, ht] at h

theorem mergeBoth_ok_of {da db : List (String × PyVal)}
    (h : ∀ p ∈ da, ∀ vb, lookupK p.1 db = some vb → ∃ v, merge_to_dicts p.2 vb = .ok v) :
    ∃ l, mergeBoth da db = .ok l := by
  induction da with
  | nil => exact ⟨[], rfl⟩
  | cons e rest ih =>
    obtain ⟨k2, va⟩ := e
    obtain ⟨tail, htail⟩ := ih (fun p hp => h p (List.mem_cons_of_mem _ hp))
    cases hdb : lookupK k2 db with
    | some vb =>
      obtain ⟨v, hv⟩ := h (k2, va) (List.mem_cons_self _ _) vb hdb
      exact ⟨(k2, v) :: tail, by simp only [mergeBoth, hdb, hv, htail]⟩
    | none =>
      exact ⟨(k2, va) :: tail, by simp only [mergeBoth, hdb, htail]⟩

/-! ### The assertion error can only come from the odd-length guard -/

theorem pyConvert_no_assert (a b : PyVal) (l : List String) :
    pyConvert a b ≠ .error (.assertionError l) := by
  intro h
  unfold pyConvert at h
  split at h <;> (try split at h) <;> simp_all

theorem merge_no_assert (a b : PyVal) :
    ∀ l, merge_to_dicts a b ≠ .error (.assertionError l) := by
  refine merge_to_dicts.induct
    (fun a b => ∀ l, merge_to_dicts a b ≠ .error (.assertionError l))
    (fun da db => ∀ l, mergeBoth da db ≠ .error (.assertionError l))
    ?_ ?_ ?_ ?_ ?_ ?_ ?_ ?_ ?_ a b
  · intro da db l hm _ l2
    simp [merge_to_dicts, hm]
  · intro da db e hm ih l2
    intro hcontra
    simp only [merge_to_dicts, hm] at hcontra
    injection hcontra with h2
    exact ih l2 (h2 ▸ hm)
  · intro a b hnd l2
    have hd : isDict a = false ∨ isDict b = false := by
      cases a <;> cases b <;> simp [isDict]
      exact hnd _ _ rfl rfl
    rw [merge_not_both_dicts hd]
    exact pyConvert_no_assert a b l2
  · intro db l2
    simp [mergeBoth]
  · intro k va rest db vb hdb v hm tail ht _ _ l2
    simp [mergeBoth, hdb, hm, ht]
  · intro k va rest db vb hdb v hm e ht _ ih l2
    intro hcontra
    simp only [mergeBoth, hdb, hm, ht] at hcontra
    injection hcontra with h2
    exact ih l2 (h2 ▸ ht)
  · intro k va rest db vb hdb e hm ih l2
    intro hcontra
    simp only [mergeBoth, hdb, hm] at hcontra
    injection hcontra with h2
    exact ih l2 (h2 ▸ hm)
  · intro k va rest db hdb tail ht _ l2
    simp [mergeBoth, hdb, ht]
  · intro k va rest db hdb e ht ih l2
    intro hcontra
    simp only [mergeBoth, hdb, ht] at hcontra
    injection hcontra with h2
    exact ih l2 (h2 ▸ ht)

theorem ocflLoop_no_assert (cfg : PyVal) (opts : List String) :
    ∀ l, ocflLoop cfg opts ≠ .error (.assertionError l) := by
  induction cfg, opts using ocflLoop.induct with
  | case1 cfg => simp [ocflLoop]
  | case2 cfg head => simp [ocflLoop]
  | case3 cfg p v rest cfg2 hm ih =>
    intro l
    simp only [ocflLoop, hm]
    exact ih l
  | case4 cfg p v rest e hm =>
    intro l hcontra
    simp only [ocflLoop, hm] at hcontra
    injection hcontra with h2
    exact merge_no_assert _ _ l (h2 ▸ hm)

/-! ### Path expansion agrees with the spec's nested-mapping description -/

theorem splitOnDot_ne_nil (cs : List Char) : splitOnDot cs ≠ [] := by
  induction cs with
  | nil => simp [splitOnDot]
  | cons c rest ih =>
    simp only [splitOnDot]
    split
    · simp
    · split <;> simp

theorem pyFieldSplit_ne_nil (s : String) : pyFieldSplit s ≠ [] := by
  simp only [pyFieldSplit, ne_eq, List.map_eq_nil_iff]
  exact splitOnDot_ne_nil _

theorem specNestedPath_append (l : List String) (k : String) (v : PyVal) :
    specNestedPath (l ++ [k]) v = specNestedPath l (.vDict [(k, v)]) := by
  induction l with
  | nil => rfl
  | cons k2 rest ih => simp [specNestedPath, ih]

theorem anytype2bool_dict_dict (d : List (String × PyVal)) :
    anytype2bool_dict (.vDict d) = .vDict d := rfl

theorem psdLoop_spec (m : List String) :
    ∀ v : PyVal, m ≠ [] → psdLoop m v = specNestedPath m.reverse (anytype2bool_dict v) := by
  induction m with
  | nil => intro v h; exact absurd rfl h
  | cons k rest ih =>
    intro v _
    by_cases hr : rest = []
    · subst hr
      simp [psdLoop, specNestedPath]
    · rw [List.reverse_cons, specNestedPath_append]
      simp only [psdLoop]
      rw [ih (.vDict [(k, anytype2bool_dict v)]) hr, anytype2bool_dict_dict]

theorem parse_string_to_dict_spec (p : String) (v : PyVal) :
    parse_string_to_dict p v = specNestedPath (pyFieldSplit p) (anytype2bool_dict v) := by
  have hne : (pyFieldSplit p).reverse ≠ [] := by
    simp only [ne_eq, List.reverse_eq_nil_iff]
    exact pyFieldSplit_ne_nil p
  rw [parse_string_to_dict, psdLoop_spec _ v hne, List.reverse_reverse]

/-! ### No-empty-string values and key-path preservation -/

theorem noEmptyStrE_lookup {d : List (String × PyVal)} {k : String} {v : PyVal}
    (h : noEmptyStrE d = true) (hl : lookupK k d = some v) : noEmptyStr v = true := by
  induction d with
  | nil => simp [lookupK] at hl
  | cons e rest ih =>
    obtain ⟨k2, w⟩ := e
    simp only [noEmptyStrE, Bool.and_eq_true] at h
    rw [lookupK_cons] at hl
    by_cases hk : k = k2
    · rw [if_pos hk] at hl
      injection hl with h2
      exact h2 ▸ h.1
    · rw [if_neg hk] at hl
      exact ih h.2 hl

theorem noEmptyStr_specNested (l : List String) (v : PyVal) :
    noEmptyStr (specNestedPath l v) = noEmptyStr v := by
  induction l with
  | nil => rfl
  | cons k rest ih => simp [specNestedPath, noEmptyStr, noEmptyStrE, ih]

theorem coerce_noEmptyStr {v : String} (h : v ≠ "") :
    noEmptyStr (anytype2bool_dict (.vStr v)) = true := by
  unfold anytype2bool_dict
  cases hp : pyParseInt v with
  | some n => simp [hp, noEmptyStr]
  | none =>
    simp only [hp]
    split
    · simp [noEmptyStr]
    · cases hf : pyParseFloat v with
      | some f => simp [hf, noEmptyStr]
      | none => simp [hf, noEmptyStr, h]

theorem merge_hasPath (path : List String) :
    ∀ (a b r : PyVal), noEmptyStr b = true → merge_to_dicts a b = .ok r →
      hasPath path a = true → hasPath path r = true := by
  induction path with
  | nil => intro a b r _ _ _; rfl
  | cons k rest ih =>
    intro a b r hne hm hp
    cases a with
    | vInt n => simp [hasPath] at hp
    | vBool bb => simp [hasPath] at hp
    | vFloat f => simp [hasPath] at hp
    | vStr s => simp [hasPath] at hp
    | vDict da =>
      cases b with
      | vInt n =>
        rw [@merge_not_both_dicts (.vDict da) (.vInt n) (Or.inr rfl)] at hm
        simp [pyConvert] at hm
      | vBool bb =>
        rw [@merge_not_both_dicts (.vDict da) (.vBool bb) (Or.inr rfl)] at hm
        simp [pyConvert] at hm
      | vFloat f =>
        rw [@merge_not_both_dicts (.vDict da) (.vFloat f) (Or.inr rfl)] at hm
        simp [pyConvert] at hm
      | vStr s =>
        rw [@merge_not_both_dicts (.vDict da) (.vStr s) (Or.inr rfl)] at hm
        have hs : s ≠ "" := by simpa [noEmptyStr] using hne
        simp [pyConvert, hs] at hm
      | vDict db =>
        obtain ⟨l, hl, rfl⟩ := merge_dicts_cases hm
        simp only [hasPath] at hp
        cases hda : lookupK k da with
        | some va =>
          rw [hda] at hp
          cases hdb : lookupK k db with
          | some vb =>
            obtain ⟨v, hv, hlk⟩ := mergeBoth_lookup_shared hl hda hdb
            have hres : lookupK k (l ++ bOnly da db) = some v := lookupK_append_some hlk
            simp only [hasPath, hres]
            have hnevb : noEmptyStr vb = true :=
              noEmptyStrE_lookup (by simpa [noEmptyStr] using hne) hdb
            exact ih va vb v hnevb hv hp
          | none =>
            have hlk := mergeBoth_lookup_only hl hda hdb
            have hres : lookupK k (l ++ bOnly da db) = some va := lookupK_append_some hlk
            simp only [hasPath, hres]
            exact hp
        | none => rw [hda] at hp; cases hp

/-! ### Further structural helpers -/

theorem lookupK_isSome_congr {l1 l2 : List (String × PyVal)}
    (h : l1.map Prod.fst = l2.map Prod.fst) (k : String) :
    (lookupK k l1).isSome = (lookupK k l2).isSome := by
  by_cases hh : k ∈ l2.map Prod.fst
  · have h1 : (lookupK k l1).isSome := lookupK_isSome_iff.mpr (h ▸ hh)
    have h2 : (lookupK k l2).isSome := lookupK_isSome_iff.mpr hh
    rw [h1, h2]
  · have h1 : lookupK k l1 = none := lookupK_eq_none_iff.mpr (h ▸ hh)
    have h2 : lookupK k l2 = none := lookupK_eq_none_iff.mpr hh
    rw [h1, h2]

theorem merge_result_nodupKeys {da db l : List (String × PyVal)}
    (h : mergeBoth da db = .ok l) (ha : (da.map Prod.fst).Nodup)
    (hb : (db.map Prod.fst).Nodup) : (((l ++ bOnly da db)).map Prod.fst).Nodup := by
  rw [List.map_append, List.nodup_append]
  refine ⟨by rw [mergeBoth_keys h]; exact ha, ?_, ?_⟩
  · exact List.Nodup.sublist (List.Sublist.map Prod.fst (bOnly_sublist da db)) hb
  · intro k hk1 hk2
    rw [mergeBoth_keys h] at hk1
    have h1 : (lookupK k da).isSome := lookupK_isSome_iff.mpr hk1
    have h2 := @lookupK_bOnly_of_some k da db h1
    exact (lookupK_eq_none_iff.mp h2) hk2

theorem list_map_eq_self {f : Rat → Rat} {l : List Rat} (h : l.map f = l) :
    ∀ x ∈ l, f x = x := by
  induction l with
  | nil => simp
  | cons a rest ih =>
    rw [List.map_cons, List.cons.injEq] at h
    intro x hx
    rcases List.mem_cons.mp hx with rfl | hx2
    · exact h.1
    · exact ih h.2 x hx2

/-! ### Claim theorems -/

/-- C2: for every base configuration, an odd-length override token list makes
override_cfg_from_list fail with the assertion error identifying the
offending list, before any merge is attempted (the result is exactly that
error, so no partial application occurs; the embedding is pure, matching the
fact that the Python assert fires before the loop touches cfg); an
even-length list never fails on pairing (any error it can produce is a
merge conversion error, never the pairing assertion). -/
theorem claim_override_odd_length_error :
    (∀ (cfg : PyVal) (opts : List String), opts.length % 2 = 1 →
       override_cfg_from_list cfg opts = .error (.assertionError opts)) ∧
    (∀ (cfg : PyVal) (opts l : List String), opts.length % 2 = 0 →
       override_cfg_from_list cfg opts ≠ .error (.assertionError l)) := by
  constructor
  · intro cfg opts h
    have h2 : ¬ opts.length % 2 = 0 := by omega
    simp [override_cfg_from_list, h2]
  · intro cfg opts l h
    simp only [override_cfg_from_list, h, if_pos]
    exact ocflLoop_no_assert cfg opts l

/-- C2 witness: the contract evaluated at the spec's example list ["a.b"]
and at a well-paired two-token list. -/
theorem claim_override_odd_length_error_witness :
    override_cfg_from_list (.vDict []) ["a.b"] = .error (.assertionError ["a.b"]) ∧
    override_cfg_from_list (.vDict []) ["a", "1"] ≠ .error (.assertionError ["a", "1"]) :=
  ⟨claim_override_odd_length_error.1 (.vDict []) ["a.b"] (by decide),
   claim_override_odd_length_error.2 (.vDict []) ["a", "1"] ["a", "1"] (by decide)⟩

/-- C3: evaluating the code at the spec's own example: overriding
base {"a": {"b": 1}} with path "a" and raw value "5" does not produce
{"a": 5} as the spec promises; the merge evaluates dict(5), which raises
TypeError.  The spec describes the standard subtree-replacing semantics, and
the code's deepcopy(type(a)(b)) crashes on it, so this is a code bug. -/
theorem claim_scalar_replaces_subtree_bug :
    override_cfg_from_list (.vDict [("a", .vDict [("b", .vInt 1)])]) ["a", "5"]
      = .error .typeError := by
  simp [override_cfg_from_list, ocflLoop, parse_string_to_dict, pyFieldSplit, splitOnDot,
    psdLoop, anytype2bool_dict, merge_to_dicts, mergeBoth, lookupK, bOnly, pyConvert,
    pyParseInt, pyTrim, digitGroup, digitGroupTail, digitsVal]

/-- C5: scalar coercion returns non-string inputs unchanged; a string that
parses as an int is returned as that int (first stage wins); and the spec's
examples: "5" to integer 5, "5.5" to float 5.5, "true"/"True" to boolean
true (case-insensitive), "abc" kept as the string "abc".  The embedded
function is total, matching "no stage raises an error". -/
theorem claim_scalar_coercion :
    (∀ v : PyVal, (∀ s, v ≠ .vStr s) → anytype2bool_dict v = v) ∧
    (∀ (s : String) (n : Int), pyParseInt s = some n →
       anytype2bool_dict (.vStr s) = .vInt n) ∧
    anytype2bool_dict (.vStr "5") = .vInt 5 ∧
    anytype2bool_dict (.vStr "5.5") = .vFloat (.finite (11 / 2)) ∧
    anytype2bool_dict (.vStr "true") = .vBool true ∧
    anytype2bool_dict (.vStr "True") = .vBool true ∧
    anytype2bool_dict (.vStr "abc") = .vStr "abc" := by
  refine ⟨?_, ?_, rfl, ?_, rfl, rfl, rfl⟩
  · intro v h
    cases v with
    | vStr s => exact absurd rfl (h s)
    | vInt n => rfl
    | vBool bb => rfl
    | vFloat f => rfl
    | vDict d => rfl
  · intro s n h
    unfold anytype2bool_dict
    simp [h]
  · simp [anytype2bool_dict, pyParseInt, pyTrim, digitGroup, digitGroupTail, lowerChars,
      pyParseFloat, splitOnceBy, mantissaOk, mantissaVal, expVal, digitsVal]
    norm_num

/-- C5 witness: non-string passthrough at the integer 7, and stage-one parse
at the string "7". -/
theorem claim_scalar_coercion_witness :
    anytype2bool_dict (.vInt 7) = .vInt 7 ∧ anytype2bool_dict (.vStr "7") = .vInt 7 :=
  ⟨claim_scalar_coercion.1 (.vInt 7) (fun s => by simp),
   claim_scalar_coercion.2.1 "7" 7 rfl⟩

/-- C6: path expansion produces exactly the single-branch nested mapping
whose successive keys are the segments of the path split on "." (the sole
delimiter, no escaping) and whose innermost leaf is the coerced value;
in particular "a.b.c" with any value w gives
{"a": {"b": {"c": coerce(w)}}} and ("a.b", 3) gives {"a": {"b": 3}}. -/
theorem claim_path_expansion :
    (∀ (p : String) (v : PyVal),
       parse_string_to_dict p v = specNestedPath (pyFieldSplit p) (anytype2bool_dict v)) ∧
    (∀ w : PyVal, parse_string_to_dict "a.b.c" w
       = .vDict [("a", .vDict [("b", .vDict [("c", anytype2bool_dict w)])])]) ∧
    parse_string_to_dict "a.b" (.vInt 3) = .vDict [("a", .vDict [("b", .vInt 3)])] := by
  refine ⟨parse_string_to_dict_spec, ?_, rfl⟩
  intro w
  rw [parse_string_to_dict_spec]
  rfl

/-- C9: div with a scalar int or float denominator equal to 0 returns a
zero tensor with the numerator's shape (same length, all entries zero)
without any error, and with a nonzero scalar denominator returns the
elementwise quotient. -/
theorem claim_div_scalar :
    ∀ t : PyTensor,
      ((div t (.dInt 0)).1 = ⟨t.data.map (fun _ => 0)⟩ ∧
       (div t (.dFloat 0)).1 = ⟨t.data.map (fun _ => 0)⟩ ∧
       (div t (.dInt 0)).1.data.length = t.data.length ∧
       (∀ x ∈ (div t (.dInt 0)).1.data, x = 0)) ∧
      (∀ n : Int, n ≠ 0 → (div t (.dInt n)).1 = ⟨t.data.map (fun x => x / (n : Rat))⟩) ∧
      (∀ q : Rat, q ≠ 0 → (div t (.dFloat q)).1 = ⟨t.data.map (fun x => x / q)⟩) := by
  intro t
  refine ⟨⟨rfl, rfl, by simp [div, zeros_like], ?_⟩, ?_, ?_⟩
  · intro x hx
    simp [div, zeros_like] at hx
    exact hx.2
  · intro n hn
    simp [div, hn]
  · intro q hq
    simp [div, hq]

/-- C9 witness: dividing the tensor [6] by the nonzero scalars 2 and one
half, and by zero. -/
theorem claim_div_scalar_witness :
    (div ⟨[6]⟩ (.dInt 0)).1 = ⟨[0]⟩ ∧ (div ⟨[6]⟩ (.dInt 2)).1 = ⟨[3]⟩ ∧
    (div ⟨[6]⟩ (.dFloat (1 / 2))).1 = ⟨[12]⟩ := by
  have h := claim_div_scalar ⟨[6]⟩
  refine ⟨?_, ?_, ?_⟩
  · rw [h.1.1]; norm_num
  · rw [h.2.1 2 (by norm_num)]; norm_num
  · rw [h.2.2 (1 / 2) (by norm_num)]; norm_num

/-- C10: when the tensor denominator contains a zero entry, div returns a
mutated denominator state: every zero entry has 1e-8 added, so the
denominator observed after the call differs from the one passed in. -/
theorem claim_div_tensor_mutation :
    ∀ (num d : PyTensor), (0 : Rat) ∈ d.data →
      ((div num (.dTensor d)).2
          = .dTensor ⟨d.data.map (fun x => if x = 0 then x + eps8 else x)⟩ ∧
       (div num (.dTensor d)).2 ≠ .dTensor d) := by
  intro num d h0
  refine ⟨rfl, ?_⟩
  intro hcontra
  have h2 : (⟨d.data.map (fun x => if x = 0 then x + eps8 else x)⟩ : PyTensor) = d := by
    injection hcontra
  have h3 : d.data.map (fun x => if x = 0 then x + eps8 else x) = d.data :=
    congrArg PyTensor.data h2
  have h4 := list_map_eq_self h3 0 h0
  rw [if_pos rfl] at h4
  norm_num [eps8] at h4

/-- C10 witness: the denominator [0, 3] is observably changed by the call. -/
theorem claim_div_tensor_mutation_witness :
    (div ⟨[1]⟩ (.dTensor ⟨[0, 3]⟩)).2 ≠ .dTensor ⟨[0, 3]⟩ :=
  (claim_div_tensor_mutation ⟨[1]⟩ ⟨[0, 3]⟩ (by decide)).2

/-- C1 counterexample: merging base {"a": "x"} with override {"a": 5}
succeeds but stores the STRING "5" (the override's value converted to the
base value's type, str(5)), not the override's value 5 itself, refuting
"a key present in both where at least one value is not a mapping takes the
override's value". -/
theorem claim_merge_algorithm_cex :
    merge_to_dicts (.vDict [("a", .vStr "x")]) (.vDict [("a", .vInt 5)])
      = .ok (.vDict [("a", .vStr "5")]) ∧ PyVal.vStr "5" ≠ PyVal.vInt 5 := by
  constructor
  · simp [merge_to_dicts, mergeBoth, lookupK, bOnly, pyConvert, pyStr, pyRepr]
    rfl
  · simp

/-- C1 (amended): for dict inputs the merge result, when it exists, is a
mapping whose key set is the union of the two key sets; a key in both is
merged recursively by merge_to_dicts itself (which for two mappings recurses
and otherwise applies type(a)(b), i.e. pyConvert — the override's value
converted to the base value's Python type, raising when impossible); a key
in only one input takes that input's (deep-copied) value.  The spec's
example {"a": {"x": 1, "y": 2}} overridden by {"a": {"y": 9}} gives
{"a": {"x": 1, "y": 9}}. -/
theorem claim_merge_algorithm :
    (∀ (da db : List (String × PyVal)) (r : PyVal),
       merge_to_dicts (.vDict da) (.vDict db) = .ok r →
       ∃ l, r = .vDict l ∧
         (∀ k, (lookupK k l).isSome
             = ((lookupK k da).isSome || (lookupK k db).isSome)) ∧
         (∀ k va vb, lookupK k da = some va → lookupK k db = some vb →
            ∃ v, merge_to_dicts va vb = .ok v ∧ lookupK k l = some v) ∧
         (∀ k va, lookupK k da = some va → lookupK k db = none →
            lookupK k l = some va) ∧
         (∀ k vb, lookupK k da = none → lookupK k db = some vb →
            lookupK k l = some vb)) ∧
    (∀ a b : PyVal, isDict a = false ∨ isDict b = false →
       merge_to_dicts a b = pyConvert a b) ∧
    merge_to_dicts (.vDict [("a", .vDict [("x", .vInt 1), ("y", .vInt 2)])])
                   (.vDict [("a", .vDict [("y", .vInt 9)])])
      = .ok (.vDict [("a", .vDict [("x", .vInt 1), ("y", .vInt 9)])]) := by
  refine ⟨?_, fun a b h => merge_not_both_dicts h, ?_⟩
  · intro da db r h
    obtain ⟨l, hl, rfl⟩ := merge_dicts_cases h
    refine ⟨l ++ bOnly da db, rfl, ?_, ?_, ?_, ?_⟩
    · intro k
      by_cases hA : (lookupK k da).isSome = true
      · have hkeys := lookupK_isSome_congr (mergeBoth_keys hl) k
        have hLl : (lookupK k l).isSome = true := by rw [hkeys, hA]
        obtain ⟨vl, hvl⟩ := Option.isSome_iff_exists.mp hLl
        rw [lookupK_append_some hvl, hA]
        simp
      · have hAn : lookupK k da = none := by
          cases hh : lookupK k da
          · rfl
          · rw [hh] at hA; simp at hA
        have hLl : lookupK k l = none := by
          rw [lookupK_eq_none_iff, mergeBoth_keys hl, ← lookupK_eq_none_iff]
          exact hAn
        rw [lookupK_append_none _ hLl, lookupK_bOnly_of_none hAn, hAn]
        simp
    · intro k va vb hka hkb
      obtain ⟨v, hv, hlk⟩ := mergeBoth_lookup_shared hl hka hkb
      exact ⟨v, hv, lookupK_append_some hlk⟩
    · intro k va hka hkb
      exact lookupK_append_some (mergeBoth_lookup_only hl hka hkb)
    · intro k vb hka hkb
      have hLl : lookupK k l = none := by
        rw [lookupK_eq_none_iff, mergeBoth_keys hl, ← lookupK_eq_none_iff]
        exact hka
      rw [lookupK_append_none _ hLl, lookupK_bOnly_of_none hka, hkb]
  · simp [merge_to_dicts, mergeBoth, lookupK, bOnly, pyConvert]

/-- C1 witness: the characterization applied to the one-key merge of
{"y": 2} with {"y": 9}, whose result is {"y": 9}. -/
theorem claim_merge_algorithm_witness :
    ∃ l, (PyVal.vDict [("y", PyVal.vInt 9)]) = .vDict l ∧
      (∀ k, (lookupK k l).isSome
          = ((lookupK k [("y", PyVal.vInt 2)]).isSome
              || (lookupK k [("y", PyVal.vInt 9)]).isSome)) ∧
      (∀ k va vb, lookupK k [("y", PyVal.vInt 2)] = some va →
         lookupK k [("y", PyVal.vInt 9)] = some vb →
         ∃ v, merge_to_dicts va vb = .ok v ∧ lookupK k l = some v) ∧
      (∀ k va, lookupK k [("y", PyVal.vInt 2)] = some va →
         lookupK k [("y", PyVal.vInt 9)] = none → lookupK k l = some va) ∧
      (∀ k vb, lookupK k [("y", PyVal.vInt 2)] = none →
         lookupK k [("y", PyVal.vInt 9)] = some vb → lookupK k l = some vb) :=
  claim_merge_algorithm.1 [("y", .vInt 2)] [("y", .vInt 9)] (.vDict [("y", .vInt 9)])
    (by simp [merge_to_dicts, mergeBoth, lookupK, bOnly, pyConvert])

/-- C4 counterexample: applying ["a", "1", "a", "2"] to the base
{"a": "x"} yields {"a": "2"} — a string, because each merge converts the
override to the base value's type — not the integer 2, refuting the claim
for arbitrary bases. -/
theorem claim_later_override_wins_cex :
    override_cfg_from_list (.vDict [("a", .vStr "x")]) ["a", "1", "a", "2"]
      = .ok (.vDict [("a", .vStr "2")]) ∧ PyVal.vStr "2" ≠ PyVal.vInt 2 := by
  constructor
  · simp [override_cfg_from_list, ocflLoop, parse_string_to_dict, pyFieldSplit, splitOnDot,
      psdLoop, anytype2bool_dict, merge_to_dicts, mergeBoth, lookupK, bOnly, pyConvert,
      pyParseInt, pyTrim, digitGroup, digitGroupTail, digitsVal, pyStr, pyRepr]
    rfl
  · simp

/-- C4 (amended): overrides are applied left to right and the later
override wins, with the value converted to the base's type at that key:
whenever key "a" is absent from the (duplicate-free) base or holds an int,
applying ["a", "1", "a", "2"] succeeds and leaves the integer 2 at "a". -/
theorem claim_later_override_wins :
    ∀ d : List (String × PyVal), (d.map Prod.fst).Nodup →
      (lookupK "a" d = none ∨ ∃ n, lookupK "a" d = some (.vInt n)) →
      ∃ r, override_cfg_from_list (.vDict d) ["a", "1", "a", "2"] = .ok (.vDict r) ∧
        lookupK "a" r = some (.vInt 2) := by
  intro d hnd hcase
  have hod1 : parse_string_to_dict "a" (.vStr "1") = .vDict [("a", .vInt 1)] := rfl
  have hod2 : parse_string_to_dict "a" (.vStr "2") = .vDict [("a", .vInt 2)] := rfl
  have hsucc1 : ∃ l1, mergeBoth d [("a", .vInt 1)] = .ok l1 := by
    apply mergeBoth_ok_of
    intro p hp vb hvb
    have hpa : p.1 = "a" ∧ vb = .vInt 1 := by
      rw [lookupK_cons] at hvb
      by_cases hh : p.1 = "a"
      · rw [if_pos hh] at hvb
        exact ⟨hh, by injection hvb with h2; exact h2.symm⟩
      · rw [if_neg hh] at hvb
        simp [lookupK] at hvb
    obtain ⟨hh, rfl⟩ := hpa
    rcases hcase with hnone | ⟨n, hn⟩
    · exfalso
      have hmem : (p.1, p.2) ∈ d := by simpa using hp
      have hsome := lookupK_isSome_of_mem hmem
      rw [hh, hnone] at hsome
      simp at hsome
    · have hl := lookupK_of_mem_nodup hnd (show (p.1, p.2) ∈ d by simpa using hp)
      rw [hh, hn] at hl
      injection hl with h2
      refine ⟨.vInt 1, ?_⟩
      rw [← h2, @merge_not_both_dicts (.vInt n) (.vInt 1) (Or.inl rfl)]
      rfl
  obtain ⟨l1, hl1⟩ := hsucc1
  have hr1 : merge_to_dicts (.vDict d) (.vDict [("a", .vInt 1)])
      = .ok (.vDict (l1 ++ bOnly d [("a", .vInt 1)])) := merge_dicts_of_mergeBoth hl1
  have hlook1 : lookupK "a" (l1 ++ bOnly d [("a", .vInt 1)]) = some (.vInt 1) := by
    rcases hcase with hnone | ⟨n, hn⟩
    · have hLl : lookupK "a" l1 = none := by
        rw [lookupK_eq_none_iff, mergeBoth_keys hl1, ← lookupK_eq_none_iff]
        exact hnone
      rw [lookupK_append_none _ hLl, lookupK_bOnly_of_none hnone]
      rfl
    · obtain ⟨v, hv, hlk⟩ := mergeBoth_lookup_shared hl1 hn rfl
      have hv1 : v = .vInt 1 := by
        rw [@merge_not_both_dicts (.vInt n) (.vInt 1) (Or.inl rfl)] at hv
        injection hv with h2
        exact h2.symm
      rw [hv1] at hlk
      exact lookupK_append_some hlk
  have hnd1 : ((l1 ++ bOnly d [("a", .vInt 1)]).map Prod.fst).Nodup :=
    merge_result_nodupKeys hl1 hnd (by simp)
  have hsucc2 : ∃ l2, mergeBoth (l1 ++ bOnly d [("a", .vInt 1)]) [("a", .vInt 2)] = .ok l2 := by
    apply mergeBoth_ok_of
    intro p hp vb hvb
    have hpa : p.1 = "a" ∧ vb = .vInt 2 := by
      rw [lookupK_cons] at hvb
      by_cases hh : p.1 = "a"
      · rw [if_pos hh] at hvb
        exact ⟨hh, by injection hvb with h2; exact h2.symm⟩
      · rw [if_neg hh] at hvb
        simp [lookupK] at hvb
    obtain ⟨hh, rfl⟩ := hpa
    have hl := lookupK_of_mem_nodup hnd1 (show (p.1, p.2) ∈ _ by simpa using hp)
    rw [hh, hlook1] at hl
    injection hl with h2
    refine ⟨.vInt 2, ?_⟩
    rw [← h2, @merge_not_both_dicts (.vInt 1) (.vInt 2) (Or.inl rfl)]
    rfl
  obtain ⟨l2, hl2⟩ := hsucc2
  have hr2 : merge_to_dicts (.vDict (l1 ++ bOnly d [("a", .vInt 1)])) (.vDict [("a", .vInt 2)])
      = .ok (.vDict (l2 ++ bOnly (l1 ++ bOnly d [("a", .vInt 1)]) [("a", .vInt 2)])) :=
    merge_dicts_of_mergeBoth hl2
  have hlook2 : lookupK "a" (l2 ++ bOnly (l1 ++ bOnly d [("a", .vInt 1)]) [("a", .vInt 2)])
      = some (.vInt 2) := by
    obtain ⟨v, hv, hlk⟩ := mergeBoth_lookup_shared hl2 hlook1 rfl
    have hv2 : v = .vInt 2 := by
      rw [@merge_not_both_dicts (.vInt 1) (.vInt 2) (Or.inl rfl)] at hv
      injection hv with h2
      exact h2.symm
    rw [hv2] at hlk
    exact lookupK_append_some hlk
  refine ⟨l2 ++ bOnly (l1 ++ bOnly d [("a", .vInt 1)]) [("a", .vInt 2)], ?_, hlook2⟩
  have hlen : (["a", "1", "a", "2"] : List String).length % 2 = 0 := by decide
  simp only [override_cfg_from_list, hlen, if_true]
  simp only [ocflLoop, hod1, hr1, hod2, hr2]

/-- C4 witness: the amended claim at the base {"a": 7}. -/
theorem claim_later_override_wins_witness :
    ∃ r, override_cfg_from_list (.vDict [("a", .vInt 7)]) ["a", "1", "a", "2"]
        = .ok (.vDict r) ∧ lookupK "a" r = some (.vInt 2) :=
  claim_later_override_wins [("a", .vInt 7)] (by simp) (Or.inr ⟨7, rfl⟩)

/-- C8 counterexample: the override ("a", "") applied to
{"a": {"b": 1}} succeeds and returns {"a": {}}: the key path a.b present in
the base is gone, although the replaced base value {"b": 1} was a mapping,
not a scalar leaf — the claim's only stated exception does not cover it
(dict("") evaluates to the empty dict). -/
theorem claim_override_no_deletion_cex :
    override_cfg_from_list (.vDict [("a", .vDict [("b", .vInt 1)])]) ["a", ""]
      = .ok (.vDict [("a", .vDict [])]) ∧
    hasPath ["a", "b"] (.vDict [("a", .vDict [("b", .vInt 1)])]) = true ∧
    hasPath ["a", "b"] (.vDict [("a", .vDict [])]) = false := by
  refine ⟨?_, rfl, rfl⟩
  simp [override_cfg_from_list, ocflLoop, parse_string_to_dict, pyFieldSplit, splitOnDot,
    psdLoop, anytype2bool_dict, merge_to_dicts, mergeBoth, lookupK, bOnly, pyConvert,
    pyParseInt, pyParseFloat, pyTrim, digitGroup, digitGroupTail, digitsVal, lowerChars,
    splitOnceBy, mantissaOk, expVal]

/-- C8 (amended): applying a single override whose raw value is not the
empty string never removes a key path present in the base: every key path
of the base is still present in a successful result.  (Replacing a scalar
leaf keeps the key itself, so the claim's scalar-leaf exception never
deletes a present key; the genuine exception is the empty-string override
value, excluded here, which turns a base mapping into the empty dict.) -/
theorem claim_override_no_deletion :
    ∀ (base : PyVal) (p v : String) (r : PyVal) (path : List String),
      v ≠ "" → override_cfg_from_list base [p, v] = .ok r →
      hasPath path base = true → hasPath path r = true := by
  intro base p v r path hv h hp
  rw [override_cfg_from_list, if_pos (by simp : ([p, v] : List String).length % 2 = 0)] at h
  cases hm : merge_to_dicts base (parse_string_to_dict p (.vStr v)) with
  | ok c2 =>
    simp only [ocflLoop, hm] at h
    injection h with h2
    subst h2
    have hne : noEmptyStr (parse_string_to_dict p (.vStr v)) = true := by
      rw [parse_string_to_dict_spec, noEmptyStr_specNested]
      exact coerce_noEmptyStr hv
    exact merge_hasPath path base _ _ hne hm hp
  | error e => simp only [ocflLoop, hm] at h; cases h

/-- C8 witness: overriding {"a": 1} by ("a", "2") keeps the key path
["a"] present. -/
theorem claim_override_no_deletion_witness :
    hasPath ["a"] (.vDict [("a", .vInt 2)]) = true :=
  claim_override_no_deletion (.vDict [("a", .vInt 1)]) "a" "2"
    (.vDict [("a", .vInt 2)]) ["a"] (by decide)
    (by simp [override_cfg_from_list, ocflLoop, parse_string_to_dict, pyFieldSplit,
      splitOnDot, psdLoop, anytype2bool_dict, merge_to_dicts, mergeBoth, lookupK, bOnly,
      pyConvert, pyParseInt, pyTrim, digitGroup, digitGroupTail, digitsVal])
    rfl

end Bongard
